import Mathlib

/-!
Verification development for `jedi/inference/gradual/annotation.py`: a shallow
embedding of the module's data model and functions, plus theorems checking the
natural-language specification's claims against them.

External collaborators (the parso parser, the general value-inference engine,
and the value capability set of `jedi.inference.base_value` /
`jedi.inference.gradual.base`) are not part of the analyzed source; they are
modelled at their interface boundary, either as oracle functions quantified
over in theorems or as concrete capability functions whose doc comments say
`Modelled from the spec:`.
-/

set_option maxHeartbeats 1000000

namespace Jedi

/-- Shallow model of a parso syntax-tree node.  A `leaf` carries its node
type, its value (the text of the token) and its whitespace `pfx` (parso's
leaf prefix); a `node` carries its node type and its children.  parso leaves
have no `.children` attribute; inner nodes do. -/
inductive Node where
| leaf (typ : String) (val : String) (pfx : String)
| node (typ : String) (children : List Node)

mutual

/-- Structural equality test for `Node` (the nested inductive prevents
`deriving DecidableEq`). -/
def Node.beq : Node → Node → Bool
| .leaf t v p, .leaf t2 v2 p2 => t == t2 && v == v2 && p == p2
| .node t cs, .node t2 cs2 => t == t2 && Node.beqList cs cs2
| _, _ => false

/-- Pointwise `Node.beq` on lists. -/
def Node.beqList : List Node → List Node → Bool
| [], [] => true
| a :: as, b :: bs => Node.beq a b && Node.beqList as bs
| _, _ => false

end

mutual

theorem Node.beqEq_iff : ∀ a b : Node, Node.beq a b = true ↔ a = b
| .leaf t v p, .leaf t2 v2 p2 => by
  simp [Node.beq, and_assoc]
| .leaf _ _ _, .node _ _ => by simp [Node.beq]
| .node _ _, .leaf _ _ _ => by simp [Node.beq]
| .node t cs, .node t2 cs2 => by
  simp [Node.beq, Node.beqListEq_iff cs cs2]

theorem Node.beqListEq_iff : ∀ as bs : List Node, Node.beqList as bs = true ↔ as = bs
| [], [] => by simp [Node.beqList]
| [], _ :: _ => by simp [Node.beqList]
| _ :: _, [] => by simp [Node.beqList]
| a :: as, b :: bs => by
  simp [Node.beqList, Node.beqEq_iff a b, Node.beqListEq_iff as bs]

end

instance : DecidableEq Node := fun a b => decidable_of_iff _ (Node.beqEq_iff a b)

/-- `node.type` in parso: both leaves and inner nodes expose it. -/
def Node.typ : Node → String
| .leaf t _ _ => t
| .node t _ => t

/-- `node.children`, as an `Option` because parso leaves have no `children`
attribute (accessing it raises `AttributeError`, which the source catches). -/
def Node.childrenOpt : Node → Option (List Node)
| .leaf _ _ _ => none
| .node _ cs => some cs

mutual

/-- parso's `get_code()`: the leaf prefix concatenated with the leaf value,
concatenated over all leaves of the subtree in order. -/
def Node.getCode : Node → String
| .leaf _ v p => p ++ v
| .node _ children => Node.getCodeList children

/-- `get_code()` concatenated over a list of sibling nodes. -/
def Node.getCodeList : List Node → String
| [] => ""
| c :: cs => c.getCode ++ Node.getCodeList cs

end

/-- parso `Operator`/`Keyword` leaves compare equal to plain strings via
`_StringComparisonMixin` (`leaf == '['` compares `leaf.value`); an inner node
never equals a string. -/
def Node.eqStr (n : Node) (s : String) : Bool :=
match n with
| .leaf _ v _ => v == s
| .node _ _ => false

/-- Python's `str.strip()`: drop whitespace from both ends (written over the
character list so that it evaluates by kernel reduction). -/
def pyStrip (s : String) : String :=
  String.mk (((s.data.dropWhile Char.isWhitespace).reverse.dropWhile Char.isWhitespace).reverse)

/-- Python's `children[::2]`: every second element, starting at index 0. -/
def everyOther : List Node → List Node
| [] => []
| [x] => [x]
| x :: _ :: rest => x :: everyOther rest

/-- Embedding of `_unpack_subscriptlist` (annotation.py lines 563-570).
A generator in the source; here the list of yielded nodes, in order:
for a `subscriptlist`, walk `children[::2]` and yield the entries whose type
is not `subscript`; otherwise yield the node itself unless its type is
`subscript`. -/
def unpackSubscriptlist (subscriptlist : Node) : List Node :=
  if subscriptlist.typ == "subscriptlist" then
    match subscriptlist.childrenOpt with
    | none => []
    | some cs => (everyOther cs).filter (fun subscript => subscript.typ != "subscript")
  else
    if subscriptlist.typ != "subscript" then [subscriptlist] else []

/-- Embedding of `_split_comment_param_declaration` (lines 80-108).
`parseFn` models the external call `parse(decl_text, error_recovery=False)
.children[0]`: parso's module-level parse of the declaration text followed
by taking the first child of the module node; `Except.error` models
`ParserSyntaxError` (caught here, degrading to `[]`).  `pyStrip` models
Python's `str.strip()`. -/
def splitCommentParamDecl (parseFn : String → Except Unit Node) (declText : String) : List String :=
  match parseFn declText with
  | .error _ => []
  | .ok node =>
    if ["name", "atom_expr", "power"].contains node.typ then
      [pyStrip node.getCode]
    else
      match node.childrenOpt with
      | none => []
      | some children =>
        children.foldl
          (fun params child =>
            if ["name", "atom_expr", "power"].contains child.typ then
              params ++ [pyStrip child.getCode]
            else params)
          []

/-- Greedy whitespace skip: models a `\s*` regex item that is followed by a
non-whitespace literal (the only way such an item can match). -/
def dropWs (cs : List Char) : List Char := cs.dropWhile (fun c => c.isWhitespace)

/-- One backtracking attempt for the regex fragment `([^#]*)\)\s*->` at group
length `i`: the group is `cs.take i` (which must contain no `#`), then a
literal `)`, optional whitespace, and the literal `->`.  Returns the group
text and the remaining input after `->`. -/
def parenTry (cs : List Char) (i : Nat) : Option (String × List Char) :=
  if !(cs.take i).all (fun c => c != '#') then none
  else
    match cs.drop i with
    | ')' :: rest =>
      let r2 := dropWs rest
      if ['-', '>'].isPrefixOf r2 then some (String.mk (cs.take i), r2.drop 2) else none
    | _ => none

/-- Greedy backtracking for `([^#]*)\)\s*->`: try the longest group first
(regex `*` is greedy), shrinking until a split succeeds. -/
def parenStep (cs : List Char) : Nat → Option (String × List Char)
| 0 => parenTry cs 0
| (i+1) =>
  match parenTry cs (i+1) with
  | some r => some r
  | none => parenStep cs i

/-- The shared `^#\s*type:\s*\(([^#]*)\)\s*->` portion of the two
function-type-comment regexes (lines 155 and 215).  Returns the text of the
parenthesized group and the input remaining after `->`, or `none` when the
comment does not match. -/
def matchTypeCommentCore (s : String) : Option (String × List Char) :=
  match s.data with
  | '#' :: cs =>
    let cs1 := dropWs cs
    if ['t', 'y', 'p', 'e', ':'].isPrefixOf cs1 then
      let cs2 := dropWs (cs1.drop 5)
      match cs2 with
      | '(' :: cs3 => parenStep cs3 cs3.length
      | _ => none
    else none
  | _ => none

/-- Embedding of `re.match(r"^#\s*type:\s*\(([^#]*)\)\s*->", comment)` used by
`_infer_param` (line 155): the parameter-list group of a function type
comment, or `none` when the comment does not match. -/
def matchParamTypeComment (s : String) : Option String :=
  (matchTypeCommentCore s).map Prod.fst

/-- Embedding of `re.match(r"^#\s*type:\s*\([^#]*\)\s*->\s*([^#]*)", comment)`
used by `infer_return_types` (line 215): the return-type group of a function
type comment. -/
def matchReturnTypeComment (s : String) : Option String :=
  (matchTypeCommentCore s).map (fun pr => String.mk ((dropWs pr.2).takeWhile (fun c => c != '#')))

/-- Shallow model of a jedi inferred value, covering the capability set that
`annotation.py` consumes.  A `ValueSet` is modelled as a `List Value`: the
source's `ValueSet` wraps a `frozenset`, so the list order is only an
iteration order and set-level statements are phrased via membership.

* `typeVar decl nm`: a `TypeVar` value; `decl` identifies the declaration
  site (two declarations with the same spelling have different `decl`),
  modelling the source's identity-based equality of `TypeVar` objects.
* `typingCls nm generics`: a `TypingClassValueWithIndex` (e.g. `Type[T]`,
  `Callable[..., T]`, `Tuple[T, ...]`) with its ordered generic-argument
  value sets.
* `genCls nm generics mroRest`: a `GenericClass` (a `DefineGenericBase`);
  `mroRest` is the tail of its method-resolution order (`py__mro__` yields
  the class itself first, then `mroRest`).
* `plainCls nm mroRest`: an unparameterized class (not `DefineGenericBase`).
* `inst cls`: an instance whose `get_annotated_class_object()` is `cls`.
* `seqVal kind elems`: a sequence literal value (`array_type == kind`, e.g.
  a fixed-arity `tuple`), with one value set per element.
* `strVal s`: a string literal value (`is_string` holds, `get_safe_value`
  is `s`).
* `otherVal nm`: an opaque value exposing no `is_instance` attribute
  (the `hasattr(element, 'is_instance')` guard in `_infer_type_vars`). -/
inductive Value where
| typeVar (decl : Nat) (nm : String)
| typingCls (nm : String) (generics : List (List Value))
| genCls (nm : String) (generics : List (List Value)) (mroRest : List Value)
| plainCls (nm : String) (mroRest : List Value)
| inst (cls : Value)
| seqVal (kind : String) (elems : List (List Value))
| strVal (s : String)
| otherVal (nm : String)

mutual

/-- Structural equality test for `Value` (nested inductive, so no derived
`DecidableEq`). -/
def Value.beq : Value → Value → Bool
| .typeVar d n, .typeVar d2 n2 => d == d2 && n == n2
| .typingCls n g, .typingCls n2 g2 => n == n2 && Value.beqLL g g2
| .genCls n g m, .genCls n2 g2 m2 => n == n2 && Value.beqLL g g2 && Value.beqList m m2
| .plainCls n m, .plainCls n2 m2 => n == n2 && Value.beqList m m2
| .inst c, .inst c2 => Value.beq c c2
| .seqVal k e, .seqVal k2 e2 => k == k2 && Value.beqLL e e2
| .strVal s, .strVal s2 => s == s2
| .otherVal n, .otherVal n2 => n == n2
| _, _ => false

/-- Pointwise `Value.beq` on lists. -/
def Value.beqList : List Value → List Value → Bool
| [], [] => true
| a :: as, b :: bs => Value.beq a b && Value.beqList as bs
| _, _ => false

/-- Pointwise `Value.beqList` on lists of lists. -/
def Value.beqLL : List (List Value) → List (List Value) → Bool
| [], [] => true
| a :: as, b :: bs => Value.beqList a b && Value.beqLL as bs
| _, _ => false

end

mutual

theorem Value.beq_iff : ∀ a b : Value, Value.beq a b = true ↔ a = b
| .typeVar _ _, b => by
  cases b <;> simp [Value.beq]
| .typingCls _ g, b => by
  cases b
  case typingCls n2 g2 => simp [Value.beq, Value.beqLL_iff g g2]
  all_goals simp [Value.beq]
| .genCls _ g m, b => by
  cases b
  case genCls n2 g2 m2 =>
    simp [Value.beq, Value.beqLL_iff g g2, Value.beqList_iff m m2, and_assoc]
  all_goals simp [Value.beq]
| .plainCls _ m, b => by
  cases b
  case plainCls n2 m2 => simp [Value.beq, Value.beqList_iff m m2]
  all_goals simp [Value.beq]
| .inst c, b => by
  cases b
  case inst c2 => simp [Value.beq, Value.beq_iff c c2]
  all_goals simp [Value.beq]
| .seqVal _ e, b => by
  cases b
  case seqVal k2 e2 => simp [Value.beq, Value.beqLL_iff e e2]
  all_goals simp [Value.beq]
| .strVal _, b => by
  cases b <;> simp [Value.beq]
| .otherVal _, b => by
  cases b <;> simp [Value.beq]

theorem Value.beqList_iff : ∀ as bs : List Value, Value.beqList as bs = true ↔ as = bs
| [], [] => by simp [Value.beqList]
| [], _ :: _ => by simp [Value.beqList]
| _ :: _, [] => by simp [Value.beqList]
| a :: as, b :: bs => by
  simp [Value.beqList, Value.beq_iff a b, Value.beqList_iff as bs]

theorem Value.beqLL_iff : ∀ as bs : List (List Value), Value.beqLL as bs = true ↔ as = bs
| [], [] => by simp [Value.beqLL]
| [], _ :: _ => by simp [Value.beqLL]
| _ :: _, [] => by simp [Value.beqLL]
| a :: as, b :: bs => by
  simp [Value.beqLL, Value.beqList_iff a b, Value.beqLL_iff as bs]

end

instance : DecidableEq Value := fun a b => decidable_of_iff _ (Value.beq_iff a b)

/-- Modelled from the spec: the external capability `py__name__()` of a
value (`get-name` in the spec's capability set). -/
def pyName : Value → String
| .typeVar _ nm => nm
| .typingCls nm _ => nm
| .genCls nm _ _ => nm
| .plainCls nm _ => nm
| .inst c => pyName c
| .seqVal kind _ => kind
| .strVal _ => "str"
| .otherVal nm => nm

/-- Modelled from the spec: the external capability `get_generics()` (the
ordered generic-argument value sets of a generic construct). -/
def getGenerics : Value → List (List Value)
| .typingCls _ g => g
| .genCls _ g _ => g
| _ => []

/-- Modelled from the spec: the external capability `py__mro__()` (the
method-resolution order of a class: the class itself first, then its
linearized ancestors). -/
def pyMro : Value → List Value
| .genCls nm g m => .genCls nm g m :: m
| .plainCls nm m => .plainCls nm m :: m
| v => [v]

/-- The `isinstance(·, DefineGenericBase)` test of the source: in this
jedi version `GenericClass` is the `DefineGenericBase` the annotation code
meets. -/
def isDefineGeneric : Value → Bool
| .genCls _ _ _ => true
| _ => false

/-- The `isinstance(·, GenericClass)` test of the source. -/
def isGenericClass : Value → Bool
| .genCls _ _ _ => true
| _ => false

/-- Modelled from the spec: `hasattr(element, 'is_instance')` — opaque
values expose no `is_instance` attribute. -/
def hasIsInstance : Value → Bool
| .otherVal _ => false
| _ => true

/-- Modelled from the spec: the external capability `is_instance()`. -/
def isInstanceV : Value → Bool
| .inst _ => true
| .seqVal _ _ => true
| .strVal _ => true
| _ => false

/-- Modelled from the spec: the external capability
`get_annotated_class_object()` (the class of an instance, annotation-aware);
identity on values that are not instances. -/
def annotatedClassObj : Value → Value
| .inst c => c
| .seqVal kind _ => .plainCls kind []
| .strVal _ => .plainCls "str" []
| v => v

/-- Modelled from the spec: the external capability `py__class__()` mapped
over a value set (`value_set.py__class__()` in the source): an instance's
runtime class; classes and type variables map to their metaclass-like
representation. -/
def pyClassV : Value → Value
| .inst c => c
| .seqVal kind _ => .plainCls kind []
| .strVal _ => .plainCls "str" []
| .otherVal nm => .plainCls nm []
| _ => .plainCls "type" []

/-- Modelled from the spec: the external capability `execute_annotation()`
of one value ("convert a type descriptor into the set of values it
describes when called as a type"): a class-like descriptor yields an
instance of itself; a value that already is an instance yields itself. -/
def executeAnnotV : Value → List Value
| .inst c => [.inst c]
| .seqVal kind e => [.seqVal kind e]
| .strVal s => [.strVal s]
| v => [.inst v]

/-- `ValueSet.execute_annotation()`: union of `execute_annotation` over the
members. -/
def executeAnnotSet (vs : List Value) : List Value := vs.flatMap executeAnnotV

/-- Modelled from the spec: the external capability `iterate()`, as the
ordered element value sets of a value (empty for values that yield nothing
when iterated). -/
def iterateV : Value → List (List Value)
| .seqVal _ elems => elems
| .inst c => getGenerics c
| _ => []

/-- `ValueSet.merge_types_of_iterate()`: the merged element types obtained
by iterating every member of the set. -/
def mergeTypesOfIterate (vs : List Value) : List Value :=
  (vs.flatMap iterateV).flatMap id

/-- Modelled from the spec: `actual_value_set.try_merge('_dict_values')`
(the variadic-keyword case of `infer_type_vars_for_execution`): merge the
dictionary value types of the members; members without that capability
contribute nothing. -/
def tryMergeDictValues (vs : List Value) : List Value :=
  vs.flatMap fun v =>
    match v with
    | .inst (.genCls "dict" [_, vals] _) => vals
    | _ => []

/-- The `TypeVarBindingMap` of the source: a Python `dict` from type-variable
*name string* to bound value set, modelled as an insertion-ordered
association list with unique keys. -/
abbrev TypeVarDict := List (String × List Value)

/-- Python dict assignment `d[k] = vs`: replace the value at the first
matching key, or append a new entry at the end (dict insertion order). -/
def dictSet : TypeVarDict → String → List Value → TypeVarDict
| [], k, vs => [(k, vs)]
| (k2, vs2) :: rest, k, vs =>
  if k2 == k then (k2, vs) :: rest else (k2, vs2) :: dictSet rest k vs

/-- `ValueSet.__or__` (frozenset union), on the list model: keep the left
operand and append the members of the right operand not already present. -/
def vsetUnion (a b : List Value) : List Value :=
  a ++ b.filter (fun v => !(a.contains v))

/-- Embedding of `_merge_type_var_dicts` (lines 313-319): for each entry of
`newDict` with a non-empty value set, union it into `baseDict` at the same
key (`base_dict[name] |= values`), adding the key when absent
(the `KeyError` branch). -/
def mergeTypeVarDicts (baseDict newDict : TypeVarDict) : TypeVarDict :=
  newDict.foldl
    (fun base kv =>
      if kv.2.isEmpty then base
      else
        match base.lookup kv.1 with
        | some old => dictSet base kv.1 (vsetUnion old kv.2)
        | none => dictSet base kv.1 kv.2)
    baseDict

/-- Dict lookup with the empty value set for absent keys: the mapping a
`TypeVarBindingMap` denotes. -/
def slookup (d : TypeVarDict) (k : String) : List Value :=
  (d.lookup k).getD []

mutual

/-- Structural size of a `Value` (the auto-generated `sizeOf` of the nested
inductive is not executable); used as the recursion-depth bound of
`inferTypeVarsF`. -/
def Value.vsize : Value → Nat
| .typeVar _ _ => 1
| .typingCls _ g => 1 + Value.vsizeLL g
| .genCls _ g m => 1 + Value.vsizeLL g + Value.vsizeList m
| .plainCls _ m => 1 + Value.vsizeList m
| .inst c => 1 + Value.vsize c
| .seqVal _ e => 1 + Value.vsizeLL e
| .strVal _ => 1
| .otherVal _ => 1

/-- Summed `Value.vsize` over a list. -/
def Value.vsizeList : List Value → Nat
| [] => 0
| v :: vs => 1 + Value.vsize v + Value.vsizeList vs

/-- Summed `Value.vsizeList` over a list of lists. -/
def Value.vsizeLL : List (List Value) → Nat
| [] => 0
| l :: ls => 1 + Value.vsizeList l + Value.vsizeLL ls

end

theorem Value.vsize_pos : ∀ v : Value, 0 < v.vsize := by
  intro v
  cases v <;> simp [Value.vsize]

theorem Value.vsize_lt_of_mem {v : Value} {l : List Value} (h : v ∈ l) :
    v.vsize < Value.vsizeList l := by
  induction l with
  | nil => cases h
  | cons a as ih =>
    rcases List.mem_cons.mp h with rfl | h2
    · simp [Value.vsizeList]; omega
    · have := ih h2
      simp [Value.vsizeList]; omega

theorem Value.vsizeList_lt_of_mem {l : List Value} {ls : List (List Value)} (h : l ∈ ls) :
    Value.vsizeList l < Value.vsizeLL ls := by
  induction ls with
  | nil => cases h
  | cons a as ih =>
    rcases List.mem_cons.mp h with rfl | h2
    · simp [Value.vsizeLL]; omega
    · have := ih h2
      simp [Value.vsizeLL]; omega

/-- Modelled from the spec: `_is_homogenous()` of a tuple annotation (the
external `is_homogeneous_tuple` capability): true exactly for the
`Tuple[T, ...]` shape, whose second generic is the ellipsis literal. -/
def isHomogenous : Value → Bool
| .inst c => isHomogenous c
| .typingCls _ [_, [.otherVal "ellipsis"]] => true
| .genCls _ [_, [.otherVal "ellipsis"]] _ => true
| _ => false

/-- Embedding of `_infer_type_vars` (lines 322-497), the type-variable
unification engine.  Dispatch mirrors the source's `isinstance` chain:

* `TypeVar`: bind the variable's name to `value_set.py__class__()` when
  `is_class_value` is false, to `value_set` itself when it is true.
* `TypingClassValueWithIndex` named `Type`: when `is_class_value`, match
  each actual whose name is also `Type` and recurse pairwise over generic
  groups class-level; otherwise recurse the wrapper's first generic group
  against `value_set` class-level.
* `TypingClassValueWithIndex` named `Callable` with two generic groups:
  recurse the return group against `value_set.execute_annotation()`.
* `TypingClassValueWithIndex` named `Tuple`: per actual element that is a
  `DefineGenericBase` (directly or via its annotated class), recurse the
  single generic group against the merged iterated types when the tuple
  annotation is homogeneous, else pair generic groups positionally
  class-level.
* `GenericClass` named `Iterable` (not class-level): recurse the first
  generic group against the merged iterated types.
* other `GenericClass`: per actual element having `is_instance`, take its
  annotated class when it is an instance, then scan its MRO — the
  fold mirrors the source loop's `continue` (a name match that is not a
  `DefineGenericBase`) and `break` (after processing the first name match
  that is one) — and recurse pairwise over generic groups class-level.
* anything else: no bindings. -/
def inferTypeVarsF : Nat → Value → List Value → Bool → TypeVarDict
| 0, _, _, _ => []
| fuel + 1, annotationValue, valueSet, isClassValue =>
  match annotationValue with
  | .typeVar _ nm =>
    if !isClassValue then [(nm, valueSet.map pyClassV)]
    else [(nm, valueSet)]
  | .typingCls nm given =>
    if nm == "Type" then
      if given.isEmpty then []
      else if isClassValue then
        valueSet.foldl
          (fun tvd element =>
            if nm == pyName element then
              (given.zip (getGenerics element)).foldl
                (fun tvd2 pr =>
                  pr.1.foldl
                    (fun tvd3 nested =>
                      mergeTypeVarDicts tvd3 (inferTypeVarsF fuel nested pr.2 true))
                    tvd2)
                tvd
            else tvd)
          []
      else
        match given with
        | [] => []
        | g0 :: _ =>
          g0.foldl
            (fun tvd nested => mergeTypeVarDicts tvd (inferTypeVarsF fuel nested valueSet true))
            []
    else if nm == "Callable" then
      match given with
      | [_, g1] =>
        g1.foldl
          (fun tvd nested =>
            mergeTypeVarDicts tvd (inferTypeVarsF fuel nested (executeAnnotSet valueSet) false))
          []
      | _ => []
    else if nm == "Tuple" then
      valueSet.foldl
        (fun tvd element =>
          let pyCls0 := annotatedClassObj element
          let pyCls := if !isGenericClass pyCls0 then element else pyCls0
          if !isDefineGeneric pyCls then tvd
          else
            match executeAnnotV (.typingCls nm given) with
            | [tupleAnn] =>
              if isHomogenous tupleAnn then
                match given with
                | [] => tvd
                | g0 :: _ =>
                  g0.foldl
                    (fun tvd2 nested =>
                      mergeTypeVarDicts tvd2
                        (inferTypeVarsF fuel nested (mergeTypesOfIterate valueSet) false))
                    tvd
              else
                (given.zip (getGenerics pyCls)).foldl
                  (fun tvd2 pr =>
                    pr.1.foldl
                      (fun tvd3 nested =>
                        mergeTypeVarDicts tvd3 (inferTypeVarsF fuel nested pr.2 true))
                      tvd2)
                  tvd
            | _ => tvd)
        []
    else []
  | .genCls nm given _mroRest =>
    if nm == "Iterable" && !isClassValue then
      match given with
      | [] => []
      | g0 :: _ =>
        g0.foldl
          (fun tvd nested =>
            mergeTypeVarDicts tvd (inferTypeVarsF fuel nested (mergeTypesOfIterate valueSet) false))
          []
    else
      valueSet.foldl
        (fun tvd element =>
          if !hasIsInstance element then tvd
          else
            let pyCls := if isInstanceV element then annotatedClassObj element else element
            let selected :=
              (pyMro pyCls).foldl
                (fun acc parent =>
                  match acc with
                  | some p => some p
                  | none =>
                    if nm == pyName parent then
                      if !isDefineGeneric parent then none
                      else some parent
                    else none)
                none
            match selected with
            | none => tvd
            | some parent =>
              (given.zip (getGenerics parent)).foldl
                (fun tvd2 pr =>
                  pr.1.foldl
                    (fun tvd3 nested =>
                      mergeTypeVarDicts tvd3 (inferTypeVarsF fuel nested pr.2 true))
                    tvd2)
                tvd)
        []
  | _ => []

/-- `_infer_type_vars(annotation_value, value_set, is_class_value)`: the fuel
version instantiated with fuel `Value.vsize annotationValue`, which always
suffices because every recursive call of the source is on a structurally
smaller annotation value (a member of a generic-argument group of the
current one); `inferTypeVarsF_congr` proves the fuel irrelevant above this
bound. -/
def inferTypeVars (annotationValue : Value) (valueSet : List Value) (isClassValue : Bool) :
    TypeVarDict :=
  inferTypeVarsF annotationValue.vsize annotationValue valueSet isClassValue

theorem foldTv_congr (f1 f2 : Nat) (g0 : List Value) (acts : List Value) (b : Bool)
    (tvd : TypeVarDict)
    (h : ∀ nested ∈ g0, inferTypeVarsF f1 nested acts b = inferTypeVarsF f2 nested acts b) :
    g0.foldl (fun tvd2 nested => mergeTypeVarDicts tvd2 (inferTypeVarsF f1 nested acts b)) tvd
      = g0.foldl (fun tvd2 nested => mergeTypeVarDicts tvd2 (inferTypeVarsF f2 nested acts b))
          tvd := by
  apply List.foldl_ext
  intro acc nested hn
  rw [h nested hn]

theorem foldZip_congr (f1 f2 : Nat) (zl : List (List Value × List Value)) (tvd : TypeVarDict)
    (h : ∀ pr ∈ zl, ∀ nested ∈ pr.1,
      inferTypeVarsF f1 nested pr.2 true = inferTypeVarsF f2 nested pr.2 true) :
    zl.foldl
        (fun tvd2 pr =>
          pr.1.foldl
            (fun tvd3 nested => mergeTypeVarDicts tvd3 (inferTypeVarsF f1 nested pr.2 true))
            tvd2)
        tvd
      = zl.foldl
          (fun tvd2 pr =>
            pr.1.foldl
              (fun tvd3 nested => mergeTypeVarDicts tvd3 (inferTypeVarsF f2 nested pr.2 true))
              tvd2)
          tvd := by
  apply List.foldl_ext
  intro acc pr hpr
  apply List.foldl_ext
  intro acc2 nested hn
  rw [h pr hpr nested hn]

/-- Above the structural-size bound the fuel of `inferTypeVarsF` is
irrelevant: the source's recursion always descends into structurally
smaller annotation values. -/
theorem inferTypeVarsF_congr :
    ∀ (f1 : Nat) (a : Value) (f2 : Nat) (vs : List Value) (icv : Bool),
      a.vsize ≤ f1 → a.vsize ≤ f2 →
      inferTypeVarsF f1 a vs icv = inferTypeVarsF f2 a vs icv := by
  intro f1
  induction f1 with
  | zero =>
    intro a f2 vs icv h1 h2
    have := a.vsize_pos
    omega
  | succ f1 ih =>
    intro a f2 vs icv h1 h2
    cases f2 with
    | zero =>
      have := a.vsize_pos
      omega
    | succ f2 =>
      cases a with
      | typeVar d nm => simp [inferTypeVarsF]
      | strVal s => simp [inferTypeVarsF]
      | otherVal nm => simp [inferTypeVarsF]
      | inst c => simp [inferTypeVarsF]
      | plainCls nm m => simp [inferTypeVarsF]
      | seqVal k e => simp [inferTypeVarsF]
      | typingCls nm g =>
        have hg : Value.vsizeLL g ≤ f1 ∧ Value.vsizeLL g ≤ f2 := by
          simp [Value.vsize] at h1 h2
          omega
        have hnested : ∀ aset ∈ g, ∀ nested ∈ aset, ∀ (acts : List Value) (b : Bool),
            inferTypeVarsF f1 nested acts b = inferTypeVarsF f2 nested acts b := by
          intro aset ha nested hn acts b
          have i1 := Value.vsizeList_lt_of_mem ha
          have i2 := Value.vsize_lt_of_mem hn
          exact ih nested f2 acts b (by omega) (by omega)
        simp only [inferTypeVarsF]
        by_cases hT : nm = "Type"
        · subst hT
          simp only [beq_self_eq_true, if_pos]
          by_cases hE : g.isEmpty
          · simp [hE]
          · simp only [hE, Bool.false_eq_true, if_neg, if_false]
            cases hicv : icv with
            | true =>
              simp only [if_pos]
              apply List.foldl_ext
              intro acc element _
              by_cases hname : ("Type" : String) == pyName element
              · simp only [hname, if_pos]
                apply foldZip_congr
                intro pr hpr nested hn
                obtain ⟨aset, acts⟩ := pr
                have hmem := List.of_mem_zip hpr
                exact hnested aset hmem.1 nested hn acts true
              · simp [hname]
            | false =>
              simp only [Bool.false_eq_true, if_neg, if_false]
              cases g with
              | nil => rfl
              | cons g0 grest =>
                apply foldTv_congr
                intro nested hn
                exact hnested g0 (List.mem_cons_self g0 grest) nested hn vs true
        · have hT2 : (nm == "Type") = false := by simp [hT]
          simp only [hT2, Bool.false_eq_true, if_neg, if_false]
          by_cases hC : nm = "Callable"
          · subst hC
            simp only [beq_self_eq_true, if_pos]
            cases g with
            | nil => rfl
            | cons g0 grest =>
              cases grest with
              | nil => rfl
              | cons g1 grest2 =>
                cases grest2 with
                | nil =>
                  apply foldTv_congr
                  intro nested hn
                  exact hnested g1 (by simp) nested hn (executeAnnotSet vs) false
                | cons _ _ => rfl
          · have hC2 : (nm == "Callable") = false := by simp [hC]
            simp only [hC2, Bool.false_eq_true, if_neg, if_false]
            by_cases hTu : nm = "Tuple"
            · subst hTu
              simp only [beq_self_eq_true, if_pos]
              apply List.foldl_ext
              intro acc element _
              cases hd : isDefineGeneric
                  (if !isGenericClass (annotatedClassObj element) then element
                   else annotatedClassObj element) with
              | false => simp [hd]
              | true =>
                simp only [hd, Bool.not_true, Bool.false_eq_true, if_neg, if_false]
                cases hex : executeAnnotV (.typingCls "Tuple" g) with
                | nil => rfl
                | cons t ts =>
                  cases ts with
                  | cons _ _ => rfl
                  | nil =>
                    cases hhom : isHomogenous t with
                    | true =>
                      simp only [hhom, if_pos]
                      cases g with
                      | nil => rfl
                      | cons g0 grest =>
                        apply foldTv_congr
                        intro nested hn
                        exact hnested g0 (List.mem_cons_self g0 grest) nested hn
                          (mergeTypesOfIterate vs) false
                    | false =>
                      simp only [hhom, Bool.false_eq_true, if_neg, if_false]
                      apply foldZip_congr
                      intro pr hpr nested hn
                      obtain ⟨aset, acts⟩ := pr
                      have hmem := List.of_mem_zip hpr
                      exact hnested aset hmem.1 nested hn acts true
            · have hTu2 : (nm == "Tuple") = false := by simp [hTu]
              simp [hTu2]
      | genCls nm g m =>
        have hg : Value.vsizeLL g ≤ f1 ∧ Value.vsizeLL g ≤ f2 := by
          simp [Value.vsize] at h1 h2
          omega
        have hnested : ∀ aset ∈ g, ∀ nested ∈ aset, ∀ (acts : List Value) (b : Bool),
            inferTypeVarsF f1 nested acts b = inferTypeVarsF f2 nested acts b := by
          intro aset ha nested hn acts b
          have i1 := Value.vsizeList_lt_of_mem ha
          have i2 := Value.vsize_lt_of_mem hn
          exact ih nested f2 acts b (by omega) (by omega)
        simp only [inferTypeVarsF]
        cases hit : (nm == "Iterable" && !icv) with
        | true =>
          simp only [hit, if_pos]
          cases g with
          | nil => rfl
          | cons g0 grest =>
            apply foldTv_congr
            intro nested hn
            exact hnested g0 (List.mem_cons_self g0 grest) nested hn
              (mergeTypesOfIterate vs) false
        | false =>
          simp only [hit, Bool.false_eq_true, if_neg, if_false]
          apply List.foldl_ext
          intro acc element _
          cases hh : hasIsInstance element with
          | false => simp [hh]
          | true =>
            simp only [hh, Bool.not_true, Bool.false_eq_true, if_neg, if_false]
            cases hsel :
                (pyMro (if isInstanceV element then annotatedClassObj element else element)).foldl
                  (fun acc2 parent =>
                    match acc2 with
                    | some p => some p
                    | none =>
                      if nm == pyName parent then
                        if !isDefineGeneric parent then none
                        else some parent
                      else none)
                  none with
            | none => simp [hsel]
            | some parent =>
              simp only [hsel]
              apply foldZip_congr
              intro pr hpr nested hn
              obtain ⟨aset, acts⟩ := pr
              have hmem := List.of_mem_zip hpr
              exact hnested aset hmem.1 nested hn acts true

/-- The inference context a resolution runs in, bundling the external
collaborators the source reaches through it: the value-inference engine
(`context.infer_node`), the grammar parser used for forward references
(`context.inference_state.grammar.parse(..., start_symbol='eval_input',
error_recovery=False)`), and parso's module-level `parse(...,
error_recovery=False).children[0]` used for comment fragments.  An
`Except.error` models a raised `ParserSyntaxError`. -/
structure Context where
  inferNode : Node → List Value
  grammarParse : String → Except Unit Node
  moduleParse : String → Except Unit Node

/-- Embedding of `_get_forward_reference_node` (lines 63-77): parse the
string as `eval_input` with error recovery off; on `ParserSyntaxError`
(`Except.error`) emit a warning (diagnostics only) and return `None`; on
success re-anchor the fresh subtree at the end of the module and return it
(the re-anchoring mutates only the new node's position and parent, which
the model does not represent). -/
def getForwardReferenceNode (ctx : Context) (s : String) : Option Node :=
  match ctx.grammarParse s with
  | .error _ => none
  | .ok newNode => some newNode

/-- Embedding of `infer_annotation` (lines 26-46): infer the annotation
node; when the result is a single string literal, resolve it as a forward
reference and re-infer; a non-singleton result is returned as-is (after a
warning, diagnostics only). -/
def inferAnnot (ctx : Context) (annotationNode : Node) : List Value :=
  let valueSet := ctx.inferNode annotationNode
  if valueSet.length != 1 then valueSet
  else
    match valueSet with
    | [.strVal s] =>
      match getForwardReferenceNode ctx s with
      | some result => ctx.inferNode result
      | none => valueSet
    | _ => valueSet

/-- Modelled from the spec: the external `array_type` attribute of a value
(`'tuple'` for fixed-arity tuple literal values, absent/`None` otherwise). -/
def arrayTypeV : Value → Option String
| .seqVal k _ => some k
| _ => none

/-- Modelled from the spec: `len(list(value.py__iter__()))`, the number of
elements iterating the value yields. -/
def pyIterLen (v : Value) : Nat := (iterateV v).length

/-- Modelled from the spec: the external `py__simple_getitem__(index)` of a
single value: the value set of the indexed element of a sequence literal;
an out-of-range or unsupported access contributes nothing (failures are
non-fatal and degrade to empty results). -/
def pySimpleGetItemV (v : Value) (i : Nat) : List Value :=
  match v with
  | .seqVal _ elems => (elems.get? i).getD []
  | _ => []

/-- Embedding of `_infer_annotation_string` (lines 49-60): resolve the
string as a forward reference (`NO_VALUES` when unparseable); with an
`index`, filter the inferred set to values whose `array_type` is `tuple`
and whose iterated length is at least `index`, then take
`py__simple_getitem__(index)` of the filtered set. -/
def inferAnnotString (ctx : Context) (s : String) (index : Option Nat) : List Value :=
  match getForwardReferenceNode ctx s with
  | none => []
  | some nd =>
    let valueSet := ctx.inferNode nd
    match index with
    | none => valueSet
    | some i =>
      (valueSet.filter
          (fun v => arrayTypeV v == some "tuple" && decide (pyIterLen v ≥ i))).flatMap
        (fun v => pySimpleGetItemV v i)

/-- Embedding of `_filter_type_vars` (lines 555-560): start from a copy of
`found` and append, in iteration order, the `TypeVar` members of
`value_set` that are not in `found`. -/
def filterTypeVars (valueSet : List Value) (found : List Value) : List Value :=
  valueSet.foldl
    (fun newFound tv =>
      match tv with
      | .typeVar d nm =>
        if (Value.typeVar d nm) ∈ found then newFound else newFound ++ [.typeVar d nm]
      | _ => newFound)
    found

mutual

/-- Structural size of a `Node`, the recursion-depth bound for the fueled
`check_node` walk. -/
def Node.nsize : Node → Nat
| .leaf _ _ _ => 1
| .node _ cs => 1 + Node.nsizeList cs

/-- Summed `Node.nsize` over a list. -/
def Node.nsizeList : List Node → Nat
| [] => 0
| c :: cs => 1 + c.nsize + Node.nsizeList cs

end

/-- Embedding of the inner `check_node` of `find_unknown_type_vars`
(lines 541-548), threading the `found` accumulator: for an
`atom_expr`/`power` node whose last child is a `[...]` trailer, recurse
into each unpacked subscript element; for any other node, infer it and
filter the type variables into `found`; an `atom_expr`/`power` without such
a trailer leaves `found` unchanged.  Fuel bounds the recursion depth
(`Node.nsize` suffices: subscript elements are strictly smaller subtrees). -/
def checkNodeF (ctx : Context) : Nat → Node → List Value → List Value
| 0, _, found => found
| fuel + 1, nd, found =>
  if nd.typ == "atom_expr" || nd.typ == "power" then
    match nd.childrenOpt with
    | some children =>
      match children.getLast? with
      | some trailer =>
        if trailer.typ == "trailer" then
          match trailer.childrenOpt with
          | some (first :: second :: _) =>
            if first.eqStr "[" then
              (unpackSubscriptlist second).foldl
                (fun fnd sub => checkNodeF ctx fuel sub fnd) found
            else found
          | _ => found
        else found
      | none => found
    | none => found
  else filterTypeVars (ctx.inferNode nd) found

/-- Embedding of `find_unknown_type_vars` (lines 540-552): the ordered,
declaration-identity-deduplicated type variables referenced by an
annotation node. -/
def findUnknownTypeVars (ctx : Context) (nd : Node) : List Value :=
  checkNodeF ctx nd.nsize nd []

/-- A declared parameter: its name, its syntactic annotation node (if any),
and its star count (0 plain, 1 `*args`, 2 `**kwargs`). -/
structure ParamModel where
  name : String
  annot : Option Node
  starCount : Nat

/-- The binding kind of an executed parameter (`inspect.Parameter` kinds as
far as the source distinguishes them). -/
inductive ParamKind where
| positionalOrKeyword
| varPositional
| varKeyword
deriving DecidableEq

/-- Modelled from the spec: one entry of the external
`get_executed_param_names(function, arguments)`: a declared parameter name
together with its kind and the inferred value set of the argument actually
bound to it at the call site. -/
structure ExecutedParamName where
  stringName : String
  kind : ParamKind
  inferred : List Value

/-- A declared function with its inference context
(`get_default_param_context()`) and the external facts `annotation.py`
consumes: declared parameters, return annotation node, the same-line
trailing comment (`parser_utils.get_following_comment_same_line`), and
whether the function is a bound method. -/
structure FunctionModel where
  ctx : Context
  params : List ParamModel
  retAnnot : Option Node
  followingComment : Option String
  isBoundMethod : Bool

/-- Embedding of `py__annotations__` (lines 187-197): the dict from
annotated parameter name to its annotation node, plus a `return` entry when
the function has a return annotation. -/
def pyAnnotationsOf (f : FunctionModel) : List (String × Node) :=
  (f.params.filterMap (fun p => p.annot.map (fun a => (p.name, a)))) ++
    (match f.retAnnot with
     | some a => [("return", a)]
     | none => [])

/-- Embedding of `_infer_param` (lines 137-184).  `index` is the position
of `param` in `f.params` (`all_params.index(param)` in the source).  With a
syntactic annotation, resolve it; otherwise find the function's `# type:
(...) ->` comment, split the parenthesized group, skip the implicit `self`
of bound methods, and resolve the fragment at the (possibly shifted) index;
any missing piece degrades to `NO_VALUES`.  The comment/parameter length
mismatch check only emits a warning. -/
def inferParamAux (f : FunctionModel) (index : Nat) (param : ParamModel) : List Value :=
  match param.annot with
  | some annotationNode => inferAnnot f.ctx annotationNode
  | none =>
    match f.followingComment with
    | none => []
    | some comment =>
      match matchParamTypeComment comment with
      | none => []
      | some group1 =>
        let paramsComments := splitCommentParamDecl f.ctx.moduleParse group1
        if f.isBoundMethod && index == 0 then []
        else
          let index2 := if f.isBoundMethod then index - 1 else index
          if index2 ≥ paramsComments.length then []
          else
            match paramsComments.get? index2 with
            | some paramComment => inferAnnotString f.ctx paramComment none
            | none => []

/-- Embedding of `infer_param` (lines 111-134): resolve the parameter's
annotation, then — unless `ignore_stars` — wrap a variadic-positional
result as `tuple` generic classes and a variadic-keyword result as `dict`
generic classes with `str` keys; the source's comprehension `for c in
values` builds one (identical) wrapper per member of `values`.
`builtin_from_name(_, 'tuple')`, `'dict'` and `'str'` are modelled as the
plain builtin classes. -/
def inferParam (f : FunctionModel) (index : Nat) (param : ParamModel) (ignoreStars : Bool) :
    List Value :=
  let values := inferParamAux f index param
  if ignoreStars then values
  else if param.starCount == 1 then
    values.map (fun _ => Value.genCls "tuple" [values] [])
  else if param.starCount == 2 then
    values.map (fun _ => Value.genCls "dict" [[Value.plainCls "str" []], values] [])
  else values

/-- Modelled from the spec: the external `define_generics(type_var_dict)`
of `DefineGenericBase`/`TypeVar` values (gradual/base.py, type_var.py):
substitute the bindings — keyed by type-variable name — into the value: a
type variable becomes its binding when present and non-empty, a generic
class maps the substitution over its generic-argument groups; other values
are unchanged.  Fueled like `inferTypeVarsF` (`Value.vsize` suffices). -/
def defineGenericsF : Nat → TypeVarDict → Value → List Value
| 0, _, v => [v]
| fuel + 1, tvd, v =>
  match v with
  | .typeVar d nm =>
    match tvd.lookup nm with
    | some vs => if vs.isEmpty then [.typeVar d nm] else vs
    | none => [.typeVar d nm]
  | .genCls nm g m => [.genCls nm (g.map (fun gs => gs.flatMap (defineGenericsF fuel tvd))) m]
  | v2 => [v2]

/-- `define_generics` at its sufficient fuel. -/
def defineGenerics (tvd : TypeVarDict) (v : Value) : List Value :=
  defineGenericsF v.vsize tvd v

/-- `isinstance(ann, (DefineGenericBase, TypeVar))` (lines 236 and 289). -/
def isDefineGenericOrTypeVar : Value → Bool
| .genCls _ _ _ => true
| .typeVar _ _ => true
| _ => false

/-- Embedding of `infer_type_vars_for_execution` (lines 241-277): for each
executed parameter name having an annotation whose unknown type variables
are non-empty, unify each member of the annotation's inferred value set
against the actual bound value set (merged across iteration for `*args`,
across dict values for `**kwargs`), merging all bindings into one
accumulator dict. -/
def inferTypeVarsForExecution (f : FunctionModel) (args : List ExecutedParamName)
    (annotationDict : List (String × Node)) : TypeVarDict :=
  args.foldl
    (fun results epn =>
      match annotationDict.lookup epn.stringName with
      | none => results
      | some annotationNode =>
        let annotationVariables := findUnknownTypeVars f.ctx annotationNode
        if annotationVariables.isEmpty then results
        else
          let annotationValueSet := f.ctx.inferNode annotationNode
          let actualValueSet :=
            match epn.kind with
            | .varPositional => mergeTypesOfIterate epn.inferred
            | .varKeyword => tryMergeDictValues epn.inferred
            | .positionalOrKeyword => epn.inferred
          annotationValueSet.foldl
            (fun res ann => mergeTypeVarDicts res (inferTypeVars ann actualValueSet false))
            results)
    []

/-- Embedding of `infer_return_types` (lines 200-238): resolve the return
annotation from `py__annotations__`; absent that, resolve the comment-style
return annotation and execute it (always directly).  With a syntactic
return annotation: when `find_unknown_type_vars` finds none in it, execute
the resolved annotation set directly; otherwise build the binding map from
the executed parameters and substitute it (`define_generics`) into every
`DefineGenericBase`/`TypeVar` member before executing. -/
def inferReturnTypes (f : FunctionModel) (args : List ExecutedParamName) : List Value :=
  let allAnnotations := pyAnnotationsOf f
  match allAnnotations.lookup "return" with
  | none =>
    match f.followingComment with
    | none => []
    | some comment =>
      match matchReturnTypeComment comment with
      | none => []
      | some group1 => executeAnnotSet (inferAnnotString f.ctx (pyStrip group1) none)
  | some annotationNode =>
    let unknownTypeVars := findUnknownTypeVars f.ctx annotationNode
    let annotationValues := inferAnnot f.ctx annotationNode
    if unknownTypeVars.isEmpty then executeAnnotSet annotationValues
    else
      let typeVarDict := inferTypeVarsForExecution f args allAnnotations
      executeAnnotSet
        (annotationValues.flatMap
          (fun ann =>
            if isDefineGenericOrTypeVar ann then defineGenerics typeVarDict ann else [ann]))

/-! Concrete values shared by the claim theorems below. -/

/-- The builtin class `int`. -/
def intC : Value := .plainCls "int" []

/-- The builtin class `str`. -/
def strC : Value := .plainCls "str" []

/-! ### Claim C9: `_unpack_subscriptlist` -/

/-- A slice-like `a:b` subscript node inside a subscript list. -/
def sliceSub : Node :=
  .node "subscript" [.leaf "name" "a" "", .leaf "operator" ":" "", .leaf "name" "b" ""]

/-- The subscript list `a:b, x`. -/
def subListNode : Node :=
  .node "subscriptlist" [sliceSub, .leaf "operator" "," "", .leaf "name" "x" ""]

/-- C9 counterexample: unpacking the subscript list `a:b, x` yields only
`x` — the slice-like `subscript` child is *skipped*, not yielded as an
element as the claim states (`if subscript.type != 'subscript': yield`
drops it). -/
theorem c9_counterexample :
    unpackSubscriptlist subListNode = [Node.leaf "name" "x" ""] ∧
    sliceSub ∉ unpackSubscriptlist subListNode := by
  constructor
  · decide
  · decide

/-- C9 (amended): when type-variable discovery unpacks a subscripted
annotation expression, a top-level `subscriptlist` is flattened into its
elements (`children[::2]`), and a slice-like `subscript` form is skipped
entirely — neither yielded nor decomposed; likewise a non-list node is
yielded itself exactly when it is not a `subscript`. -/
theorem c9_unpack_characterization :
    ∀ (sl x : Node),
      x ∈ unpackSubscriptlist sl ↔
        ((sl.typ = "subscriptlist" ∧
            ∃ cs, sl.childrenOpt = some cs ∧ x ∈ everyOther cs ∧ x.typ ≠ "subscript")
          ∨ (sl.typ ≠ "subscriptlist" ∧ x = sl ∧ sl.typ ≠ "subscript")) := by
  intro sl x
  unfold unpackSubscriptlist
  by_cases h : sl.typ = "subscriptlist"
  · simp only [h, beq_self_eq_true, if_pos]
    cases hc : sl.childrenOpt with
    | none => simp [h, hc]
    | some cs => simp [h, hc, List.mem_filter]
  · have h2 : (sl.typ == "subscriptlist") = false := by simp [h]
    by_cases h3 : sl.typ = "subscript"
    · simp [h2, h3, h]
    · have h4 : (sl.typ != "subscript") = true := by simp [h3]
      simp [h2, h4, h, h3, eq_comm]

/-! ### Claim C8: `_split_comment_param_declaration` -/

/-- The parso tree of `Bar[baz, biz]` (an `atom_expr` whose internal comma
sits under the nested `subscriptlist`, not under the outer tuple). -/
def atomExprBar : Node :=
  .node "atom_expr" [.leaf "name" "Bar" " ",
    .node "trailer" [.leaf "operator" "[" "",
      .node "subscriptlist"
        [.leaf "name" "baz" "", .leaf "operator" "," "", .leaf "name" "biz" " "],
      .leaf "operator" "]" ""]]

/-- The parso tree of `foo, Bar[baz, biz]`: a `testlist_star_expr` whose
direct children are the name, the separating comma and the `atom_expr`. -/
def fooBarTree : Node :=
  .node "testlist_star_expr" [.leaf "name" "foo" "", .leaf "operator" "," "", atomExprBar]

/-- Modelled from the spec: the external parso module-level
`parse(text, error_recovery=False).children[0]` on the spec's two example
inputs — a multi-parameter declaration parses to the tuple node, a bare
name to the `name` leaf. -/
def egModuleParse : String → Except Unit Node := fun s =>
  if s = "foo, Bar[baz, biz]" then .ok fooBarTree
  else if s = "x" then .ok (.leaf "name" "x" "")
  else .error ()

theorem foldl_keep_eq_filter_map (l : List Node) :
    ∀ acc : List String,
      l.foldl
          (fun params child =>
            if ["name", "atom_expr", "power"].contains child.typ then
              params ++ [pyStrip child.getCode]
            else params)
          acc
        = acc ++ (l.filter (fun c => ["name", "atom_expr", "power"].contains c.typ)).map
            (fun c => pyStrip c.getCode) := by
  induction l with
  | nil => intro acc; simp
  | cons c cs ih =>
    intro acc
    rw [List.foldl_cons, List.filter_cons]
    cases h : ["name", "atom_expr", "power"].contains c.typ with
    | true =>
      simp only [h, if_true, List.map_cons]
      rw [ih]
      simp [List.append_assoc]
    | false =>
      simp only [h, Bool.false_eq_true, if_false]
      rw [ih]

/-- C8: the comment-annotation splitter returns the stripped text as a
single fragment when it parses to a bare name or subscripted/attribute
expression, and otherwise keeps exactly the direct children of the parsed
tuple that are names or subscripted/attribute expressions, in order —
nested commas never split a fragment: `"foo, Bar[baz, biz]"` splits to
exactly `["foo", "Bar[baz, biz]"]` and `"x"` to `["x"]`. -/
theorem c8_split_comment_decl :
    splitCommentParamDecl egModuleParse "foo, Bar[baz, biz]" = ["foo", "Bar[baz, biz]"] ∧
    splitCommentParamDecl egModuleParse "x" = ["x"] ∧
    ∀ (parseFn : String → Except Unit Node) (s : String) (nd : Node),
      parseFn s = .ok nd →
      splitCommentParamDecl parseFn s =
        if ["name", "atom_expr", "power"].contains nd.typ then [pyStrip nd.getCode]
        else
          match nd.childrenOpt with
          | none => []
          | some children =>
            (children.filter (fun c => ["name", "atom_expr", "power"].contains c.typ)).map
              (fun c => pyStrip c.getCode) := by
  refine ⟨by decide, by decide, ?_⟩
  intro parseFn s nd h
  unfold splitCommentParamDecl
  rw [h]
  cases ht : ["name", "atom_expr", "power"].contains nd.typ with
  | true => simp only [ht, if_true]
  | false =>
    simp only [ht, Bool.false_eq_true, if_false]
    cases nd.childrenOpt with
    | none => rfl
    | some children => simpa using foldl_keep_eq_filter_map children []

/-- Witness for C8: the characterization applied to the concrete parse of
`"x"`. -/
theorem c8_split_comment_decl_witness :
    splitCommentParamDecl egModuleParse "x" = ["x"] := by
  have h := c8_split_comment_decl.2.2 egModuleParse "x" (.leaf "name" "x" "") rfl
  simpa using h

/-! ### Claim C7: syntax-failure recovery -/

/-- C7: a syntax failure (`ParserSyntaxError`, the `Except.error` result of
the external parser) while parsing a forward reference degrades to a `None`
node and an empty value set, and one while parsing a comment fragment
degrades to an empty fragment list — the embedding is total, so no
exception propagates; in particular the unbalanced comment
`# type: (int, -> str` matches neither function-type-comment regex, so
resolution falls back to no annotation rather than raising. -/
theorem c7_parse_failure_recovery :
    (∀ (ctx : Context) (s : String), (∃ e, ctx.grammarParse s = .error e) →
        getForwardReferenceNode ctx s = none ∧
        ∀ index : Option Nat, inferAnnotString ctx s index = []) ∧
    (∀ (parseFn : String → Except Unit Node) (s : String), (∃ e, parseFn s = .error e) →
        splitCommentParamDecl parseFn s = []) ∧
    matchParamTypeComment "# type: (int, -> str" = none ∧
    matchReturnTypeComment "# type: (int, -> str" = none := by
  refine ⟨?_, ?_, by decide, by decide⟩
  · rintro ctx s ⟨e, he⟩
    refine ⟨?_, ?_⟩
    · unfold getForwardReferenceNode
      rw [he]
    · intro index
      unfold inferAnnotString getForwardReferenceNode
      rw [he]
  · rintro parseFn s ⟨e, he⟩
    unfold splitCommentParamDecl
    rw [he]

/-- A context whose parsers fail on every input. -/
def failCtx : Context := ⟨fun _ => [], fun _ => .error (), fun _ => .error ()⟩

/-- Witness for C7: the recovery theorem applied to a parser that rejects
the unbalanced fragment `(int, -> str`. -/
theorem c7_parse_failure_recovery_witness :
    getForwardReferenceNode failCtx "(int, -> str" = none ∧
    inferAnnotString failCtx "(int, -> str" (some 0) = [] ∧
    splitCommentParamDecl failCtx.moduleParse "(int, -> str" = [] := by
  have h := c7_parse_failure_recovery
  exact ⟨(h.1 failCtx "(int, -> str" ⟨(), rfl⟩).1,
         (h.1 failCtx "(int, -> str" ⟨(), rfl⟩).2 (some 0),
         h.2.1 failCtx.moduleParse "(int, -> str" ⟨(), rfl⟩⟩

/-! ### Claim C6: bare type-variable binding and `Type[T]` -/

/-- C6: when the annotation value is a bare type variable, unification
binds it to the actual value set itself when the class-level flag is set,
and to the classes (`py__class__`) of the actual members when it is not;
in particular unifying `Type[T]` against the class `int` binds `T` to the
class `int` itself, not to an instance of it. -/
theorem c6_typevar_binding :
    (∀ (d : Nat) (nm : String) (vs : List Value),
        inferTypeVars (.typeVar d nm) vs true = [(nm, vs)] ∧
        inferTypeVars (.typeVar d nm) vs false = [(nm, vs.map pyClassV)]) ∧
    inferTypeVars (.typingCls "Type" [[.typeVar 0 "T"]]) [intC] false = [("T", [intC])] ∧
    inferTypeVars (.typingCls "Type" [[.typeVar 0 "T"]]) [intC] false
      ≠ [("T", [Value.inst intC])] := by
  refine ⟨?_, by decide, by decide⟩
  intro d nm vs
  constructor <;> simp [inferTypeVars, Value.vsize, inferTypeVarsF]

/-! ### Claim C4: binding maps are keyed by name, not declaration -/

/-- C4 counterexample: two *distinct* type-variable declarations sharing
the spelling `T` (declaration ids 1 and 2) bound during one resolution do
not stay separate: the merged `TypeVarBindingMap` has a single entry, keyed
by the name string `T`, holding the union of both bindings. -/
theorem c4_counterexample :
    mergeTypeVarDicts (inferTypeVars (.typeVar 1 "T") [.inst intC] false)
        (inferTypeVars (.typeVar 2 "T") [.inst strC] false)
      = [("T", [intC, strC])] ∧
    (Value.typeVar 1 "T") ≠ (Value.typeVar 2 "T") := by
  constructor
  · decide
  · decide

/-- C4 (amended): the binding map produced by unification is keyed by the
type variable's *name string* (`py__name__`): the binding of a bare type
variable is independent of its declaration identity, so two same-named
declarations produce bindings under one key, merged by union. -/
theorem c4_amended_name_keying :
    ∀ (d1 d2 : Nat) (nm : String) (vs : List Value) (icv : Bool),
      inferTypeVars (.typeVar d1 nm) vs icv = inferTypeVars (.typeVar d2 nm) vs icv := by
  intro d1 d2 nm vs icv
  cases icv <;> simp [inferTypeVars, Value.vsize, inferTypeVarsF]

/-! ### Claim C5: merge is union per variable, order-independent -/

theorem lookup_dictSet_self : ∀ (d : TypeVarDict) (k : String) (vs : List Value),
    (dictSet d k vs).lookup k = some vs := by
  intro d k vs
  induction d with
  | nil => simp [dictSet]
  | cons kv rest ih =>
    obtain ⟨k2, vs2⟩ := kv
    rw [dictSet]
    by_cases h : k2 = k
    · subst h
      simp
    · have hb : (k2 == k) = false := beq_eq_false_iff_ne.mpr h
      have hb2 : (k == k2) = false := beq_eq_false_iff_ne.mpr (Ne.symm h)
      rw [if_neg (by simp [hb])]
      simp [List.lookup_cons, hb2, ih]

theorem lookup_dictSet_ne : ∀ (d : TypeVarDict) (k k2 : String) (vs : List Value),
    k2 ≠ k → (dictSet d k vs).lookup k2 = d.lookup k2 := by
  intro d k k2 vs hne
  have hb : (k2 == k) = false := beq_eq_false_iff_ne.mpr hne
  induction d with
  | nil => simp [dictSet, List.lookup_cons, hb]
  | cons kv rest ih =>
    obtain ⟨k3, vs3⟩ := kv
    rw [dictSet]
    by_cases h : k3 = k
    · subst h
      rw [if_pos (by simp)]
      simp [List.lookup_cons, hb]
    · have hb3 : (k3 == k) = false := beq_eq_false_iff_ne.mpr h
      rw [if_neg (by simp [hb3])]
      simp only [List.lookup_cons, ih]

theorem mem_vsetUnion {v : Value} {a b : List Value} :
    v ∈ vsetUnion a b ↔ v ∈ a ∨ v ∈ b := by
  unfold vsetUnion
  rw [List.mem_append, List.mem_filter]
  by_cases h : v ∈ a <;> simp [h]

theorem mergeStep_mem (b : TypeVarDict) (p : String × List Value) (k : String) (v : Value) :
    v ∈ slookup (mergeTypeVarDicts b [p]) k ↔ v ∈ slookup b k ∨ (p.1 = k ∧ v ∈ p.2) := by
  obtain ⟨pk, pvs⟩ := p
  show v ∈ slookup (List.foldl _ b [(pk, pvs)]) k ↔ _
  rw [List.foldl_cons, List.foldl_nil]
  cases he : pvs.isEmpty with
  | true =>
    have : pvs = [] := by simpa using he
    subst this
    simp [he]
  | false =>
    simp only [he, Bool.false_eq_true, if_false]
    cases hb : b.lookup pk with
    | some old =>
      simp only [hb]
      by_cases hk : k = pk
      · subst hk
        rw [slookup, lookup_dictSet_self]
        simp only [Option.getD_some]
        rw [mem_vsetUnion]
        simp [slookup, hb]
      · rw [slookup, lookup_dictSet_ne _ _ _ _ hk]
        have hpk : pk ≠ k := fun h2 => hk h2.symm
        simp [slookup, hpk]
    | none =>
      simp only [hb]
      by_cases hk : k = pk
      · subst hk
        rw [slookup, lookup_dictSet_self]
        simp [slookup, hb]
      · rw [slookup, lookup_dictSet_ne _ _ _ _ hk]
        have hpk : pk ≠ k := fun h2 => hk h2.symm
        simp [slookup, hpk]

theorem merge_cons (b : TypeVarDict) (p : String × List Value) (n : TypeVarDict) :
    mergeTypeVarDicts b (p :: n) = mergeTypeVarDicts (mergeTypeVarDicts b [p]) n := rfl

theorem merge_mem (n : TypeVarDict) : ∀ (b : TypeVarDict) (k : String) (v : Value),
    v ∈ slookup (mergeTypeVarDicts b n) k ↔
      v ∈ slookup b k ∨ ∃ p ∈ n, p.1 = k ∧ v ∈ p.2 := by
  induction n with
  | nil => simp [mergeTypeVarDicts]
  | cons p rest ih =>
    intro b k v
    rw [merge_cons, ih, mergeStep_mem]
    simp only [List.mem_cons]
    constructor
    · rintro ((hb | hp) | ⟨q, hq, hrest⟩)
      · exact Or.inl hb
      · exact Or.inr ⟨p, Or.inl rfl, hp⟩
      · exact Or.inr ⟨q, Or.inr hq, hrest⟩
    · rintro (hb | ⟨q, (rfl | hq), hrest⟩)
      · exact Or.inl (Or.inl hb)
      · exact Or.inl (Or.inr hrest)
      · exact Or.inr ⟨q, hq, hrest⟩

theorem foldMerge_mem (ds : List TypeVarDict) : ∀ (acc : TypeVarDict) (k : String) (v : Value),
    v ∈ slookup (ds.foldl mergeTypeVarDicts acc) k ↔
      v ∈ slookup acc k ∨ ∃ d ∈ ds, ∃ p ∈ d, p.1 = k ∧ v ∈ p.2 := by
  induction ds with
  | nil => simp
  | cons d rest ih =>
    intro acc k v
    rw [List.foldl_cons, ih, merge_mem]
    simp only [List.mem_cons]
    constructor
    · rintro ((hb | hp) | ⟨q, hq, hrest⟩)
      · exact Or.inl hb
      · exact Or.inr ⟨d, Or.inl rfl, hp⟩
      · exact Or.inr ⟨q, Or.inr hq, hrest⟩
    · rintro (hb | ⟨q, (rfl | hq), hrest⟩)
      · exact Or.inl (Or.inl hb)
      · exact Or.inl (Or.inr hrest)
      · exact Or.inr ⟨q, hq, hrest⟩

theorem nodup_entry_mem (d : TypeVarDict) (h : (d.map Prod.fst).Nodup) (k : String) (v : Value) :
    (∃ p ∈ d, p.1 = k ∧ v ∈ p.2) ↔ v ∈ slookup d k := by
  induction d with
  | nil => simp [slookup]
  | cons p rest ih =>
    obtain ⟨pk, pvs⟩ := p
    simp only [List.map_cons, List.nodup_cons] at h
    by_cases hk : pk = k
    · subst hk
      have hrest : ∀ q ∈ rest, q.1 ≠ pk := by
        intro q hq he
        exact h.1 (he ▸ List.mem_map_of_mem Prod.fst hq)
      have hs : slookup ((pk, pvs) :: rest) pk = pvs := by
        simp [slookup]
      rw [hs]
      simp only [List.mem_cons]
      constructor
      · rintro ⟨q, (rfl | hq), hqk, hv⟩
        · exact hv
        · exact absurd hqk (hrest q hq)
      · intro hv
        exact ⟨(pk, pvs), Or.inl rfl, rfl, hv⟩
    · have hbe : (k == pk) = false := beq_eq_false_iff_ne.mpr (fun h2 => hk h2.symm)
      have hs : slookup ((pk, pvs) :: rest) k = slookup rest k := by
        simp [slookup, List.lookup_cons, hbe]
      rw [hs, ← ih h.2]
      simp only [List.mem_cons]
      constructor
      · rintro ⟨q, (rfl | hq), hqk, hv⟩
        · exact absurd hqk hk
        · exact ⟨q, hq, hqk, hv⟩
      · rintro ⟨q, hq, hqk, hv⟩
        exact ⟨q, Or.inr hq, hqk, hv⟩

/-- C5: merging binding maps is set union per type variable and never
overwrite: the merged map's binding for each name is (as a set) the union
of the two operands' bindings; folding the merge over any permutation of a
collection of binding maps denotes the same final mapping; and a map
contributing no binding contributes nothing (the empty map is a right
identity, and an entry bound to the empty set is skipped — it is covered by
the union reading since it adds no member). -/
theorem c5_merge_algebra :
    (∀ (b n : TypeVarDict) (k : String) (v : Value), (n.map Prod.fst).Nodup →
        (v ∈ slookup (mergeTypeVarDicts b n) k ↔ v ∈ slookup b k ∨ v ∈ slookup n k)) ∧
    (∀ (ds ds2 : List TypeVarDict), ds.Perm ds2 → ∀ (k : String) (v : Value),
        (v ∈ slookup (ds.foldl mergeTypeVarDicts []) k ↔
          v ∈ slookup (ds2.foldl mergeTypeVarDicts []) k)) ∧
    (∀ b : TypeVarDict, mergeTypeVarDicts b [] = b) := by
  refine ⟨?_, ?_, fun b => rfl⟩
  · intro b n k v hn
    rw [merge_mem, nodup_entry_mem n hn]
  · intro ds ds2 hperm k v
    rw [foldMerge_mem, foldMerge_mem]
    simp only [hperm.mem_iff]

/-- Witness for C5: the union reading and the permutation invariance at
concrete binding maps. -/
theorem c5_merge_algebra_witness :
    ((Value.strVal "b") ∈
        slookup (mergeTypeVarDicts [("T", [Value.strVal "a"])] [("T", [Value.strVal "b"])]) "T") ∧
    ((Value.strVal "a") ∈
        slookup ([[("T", [Value.strVal "a"])], [("U", [Value.strVal "b"])]].foldl
          mergeTypeVarDicts []) "T"
      ↔ (Value.strVal "a") ∈
          slookup ([[("U", [Value.strVal "b"])], [("T", [Value.strVal "a"])]].foldl
            mergeTypeVarDicts []) "T") := by
  have h := c5_merge_algebra
  exact ⟨(h.1 [("T", [Value.strVal "a"])] [("T", [Value.strVal "b"])] "T" (Value.strVal "b")
            (by decide)).mpr (Or.inr (by decide)),
         h.2.1 _ _ (List.Perm.swap _ _ _) "T" (Value.strVal "a")⟩

/-! ### Claim C2: the general generic-construct MRO walk -/

theorem foldl_step_some (nm : String) (p : Value) :
    ∀ (mro : List Value),
      mro.foldl
          (fun acc parent =>
            match acc with
            | some q => some q
            | none =>
              if nm == pyName parent then
                if !isDefineGeneric parent then none
                else some parent
              else none)
          (some p)
        = some p := by
  intro mro
  induction mro with
  | nil => rfl
  | cons x xs ih => rw [List.foldl_cons]; exact ih

/-- The source's `for parent_class in py_class.py__mro__()` loop with its
`continue` (name match that is not a `DefineGenericBase`) and `break`
(after the first name match that is one) selects exactly the first MRO
entry satisfying both conditions. -/
theorem mroSelect_eq_find (nm : String) :
    ∀ (mro : List Value),
      mro.foldl
          (fun acc parent =>
            match acc with
            | some p => some p
            | none =>
              if nm == pyName parent then
                if !isDefineGeneric parent then none
                else some parent
              else none)
          none
        = mro.find? (fun parent => nm == pyName parent && isDefineGeneric parent) := by
  intro mro
  induction mro with
  | nil => rfl
  | cons x xs ih =>
    rw [List.foldl_cons, List.find?_cons]
    cases h1 : (nm == pyName x) with
    | false =>
      simp only [h1, Bool.false_eq_true, if_false, Bool.false_and]
      exact ih
    | true =>
      cases h2 : isDefineGeneric x with
      | false =>
        simp only [h1, h2, Bool.not_false, if_true, Bool.true_and]
        exact ih
      | true =>
        simp only [h1, h2, Bool.not_true, Bool.false_eq_true, if_false, if_true, Bool.true_and]
        exact foldl_step_some nm x xs

theorem foldZip_congr_top (f1 : Nat) (zl : List (List Value × List Value)) (tvd : TypeVarDict)
    (h : ∀ pr ∈ zl, ∀ nested ∈ pr.1,
      inferTypeVarsF f1 nested pr.2 true = inferTypeVars nested pr.2 true) :
    zl.foldl
        (fun tvd2 pr =>
          pr.1.foldl
            (fun tvd3 nested => mergeTypeVarDicts tvd3 (inferTypeVarsF f1 nested pr.2 true))
            tvd2)
        tvd
      = zl.foldl
          (fun tvd2 pr =>
            pr.1.foldl
              (fun tvd3 nested => mergeTypeVarDicts tvd3 (inferTypeVars nested pr.2 true))
              tvd2)
          tvd := by
  apply List.foldl_ext
  intro acc pr hpr
  apply List.foldl_ext
  intro acc2 nested hn
  rw [h pr hpr nested hn]

/-- The rule the C2 claim describes for the general generic case: stop at
the *first* MRO ancestor whose name matches the annotation construct's
name, and recurse over positionally paired generic groups (class-level)
only when that ancestor is itself parameterized. -/
def inferTypeVarsClaimC2 (nm : String) (g : List (List Value)) (vs : List Value) : TypeVarDict :=
  vs.foldl
    (fun tvd element =>
      if !hasIsInstance element then tvd
      else
        let pyCls := if isInstanceV element then annotatedClassObj element else element
        match (pyMro pyCls).find? (fun parent => nm == pyName parent) with
        | none => tvd
        | some parent =>
          if isDefineGeneric parent then
            (g.zip (getGenerics parent)).foldl
              (fun tvd2 pr =>
                pr.1.foldl
                  (fun tvd3 nested => mergeTypeVarDicts tvd3 (inferTypeVars nested pr.2 true))
                  tvd2)
              tvd
          else tvd)
    []

/-- A parameterized ancestor `Foo[int]` sitting *behind* an
unparameterized class also named `Foo` in the MRO. -/
def genFooInt : Value := .genCls "Foo" [[intC]] []

/-- An unparameterized class named `Foo` whose MRO is
`[Foo (plain), Foo[int] (generic)]`. -/
def plainFooCls : Value := .plainCls "Foo" [genFooInt]

/-- C2 counterexample: unifying the annotation `Foo[T]` against the plain
class `Foo` (whose MRO's *first* name match is the unparameterized `Foo`
itself, with a parameterized `Foo[int]` behind it) produces the binding
`T ↦ {int}` — the source `continue`s past the unparameterized name match
instead of stopping at it, while the claim's stop-at-first-match rule
would produce no binding. -/
theorem c2_counterexample :
    inferTypeVars (.genCls "Foo" [[.typeVar 7 "T"]] []) [plainFooCls] false = [("T", [intC])] ∧
    inferTypeVarsClaimC2 "Foo" [[.typeVar 7 "T"]] [plainFooCls] = [] ∧
    (pyMro plainFooCls).find? (fun parent => ("Foo" : String) == pyName parent)
      = some plainFooCls ∧
    isDefineGeneric plainFooCls = false := by
  refine ⟨by decide, by decide, by decide, by decide⟩

/-- C2 (amended): in the general generic case (a `GenericClass` annotation
that is not the instance-level `Iterable` special case), each actual value
lacking `is_instance` is skipped; an instance is replaced by its annotated
class; and the MRO walk processes — pairing annotation/actual generic
groups positionally and recursing class-level — the *first ancestor whose
name matches and which is itself parameterized*, skipping name-matching
ancestors that are not parameterized rather than stopping at them. -/
theorem c2_amended_mro_walk :
    ∀ (nm : String) (g : List (List Value)) (m : List Value) (vs : List Value) (icv : Bool),
      (nm = "Iterable" → icv = true) →
      inferTypeVars (.genCls nm g m) vs icv =
        vs.foldl
          (fun tvd element =>
            if !hasIsInstance element then tvd
            else
              let pyCls := if isInstanceV element then annotatedClassObj element else element
              match (pyMro pyCls).find?
                  (fun parent => nm == pyName parent && isDefineGeneric parent) with
              | none => tvd
              | some parent =>
                (g.zip (getGenerics parent)).foldl
                  (fun tvd2 pr =>
                    pr.1.foldl
                      (fun tvd3 nested =>
                        mergeTypeVarDicts tvd3 (inferTypeVars nested pr.2 true))
                      tvd2)
                  tvd)
          [] := by
  intro nm g m vs icv hIter
  have hcond : (nm == "Iterable" && !icv) = false := by
    cases icv with
    | true => simp
    | false =>
      simp only [Bool.not_false, Bool.and_true]
      exact beq_eq_false_iff_ne.mpr (fun h => by simpa using hIter h)
  have hv : (Value.genCls nm g m).vsize = (Value.vsizeLL g + Value.vsizeList m) + 1 := by
    simp [Value.vsize]
    omega
  unfold inferTypeVars
  rw [hv]
  simp only [inferTypeVarsF, hcond, Bool.false_eq_true, if_false]
  apply List.foldl_ext
  intro acc element _
  cases hh : hasIsInstance element with
  | false => simp [hh]
  | true =>
    simp only [hh, Bool.not_true, Bool.false_eq_true, if_false]
    rw [mroSelect_eq_find]
    cases hfind :
        (pyMro (if isInstanceV element then annotatedClassObj element else element)).find?
          (fun parent => nm == pyName parent && isDefineGeneric parent) with
    | none => rfl
    | some parent =>
      apply foldZip_congr_top
      intro pr hpr nested hn
      have hb : nested.vsize ≤ Value.vsizeLL g + Value.vsizeList m := by
        obtain ⟨aset, acts⟩ := pr
        have h1 := (List.of_mem_zip hpr).1
        have h2 := Value.vsizeList_lt_of_mem h1
        have h3 : nested.vsize < Value.vsizeList aset := Value.vsize_lt_of_mem hn
        omega
      exact inferTypeVarsF_congr _ nested nested.vsize pr.2 true hb le_rfl

/-- Witness for C2's amended theorem: the characterization applied to the
counterexample input, evaluated. -/
theorem c2_amended_mro_walk_witness :
    inferTypeVars (.genCls "Foo" [[.typeVar 7 "T"]] []) [plainFooCls] false
      = [("T", [intC])] := by
  rw [c2_amended_mro_walk "Foo" [[.typeVar 7 "T"]] [] [plainFooCls] false
    (fun h => absurd h (by decide))]
  decide

/-! ### Claim C10: variadic parameter wrappers -/

/-- C10: for a variadic parameter with `ignore_stars` false, `infer_param`
returns one wrapper per member of the underlying resolved annotation set —
a `tuple[...]` generic class for `*args`, a `dict[str, ...]` generic class
for `**kwargs` — and all the wrappers are identical (the comprehension's
loop variable is unused); consequently an empty underlying set produces
the empty set, with no bare wrapper synthesized. -/
theorem c10_variadic_wrappers :
    ∀ (f : FunctionModel) (index : Nat) (param : ParamModel),
      (param.starCount = 1 →
        inferParam f index param false
          = (inferParamAux f index param).map
              (fun _ => Value.genCls "tuple" [inferParamAux f index param] [])) ∧
      (param.starCount = 2 →
        inferParam f index param false
          = (inferParamAux f index param).map
              (fun _ => Value.genCls "dict"
                  [[Value.plainCls "str" []], inferParamAux f index param] [])) ∧
      ((param.starCount = 1 ∨ param.starCount = 2) → inferParamAux f index param = [] →
        inferParam f index param false = []) := by
  intro f index param
  refine ⟨?_, ?_, ?_⟩
  · intro h1
    unfold inferParam
    simp [h1]
  · intro h2
    unfold inferParam
    simp [h2]
  · rintro (h | h) hempty <;> unfold inferParam <;> simp [h, hempty]

/-- A context inferring every node to the builtin class `int`. -/
def c10ctx : Context := ⟨fun _ => [intC], fun _ => .error (), fun _ => .error ()⟩

/-- A parameter annotation node for the C10 witness. -/
def c10annNode : Node := .leaf "name" "int" ""

/-- A one-parameter function whose `*args` parameter is annotated. -/
def c10f : FunctionModel := ⟨c10ctx, [⟨"a", some c10annNode, 1⟩], none, none, false⟩

/-- Witness for C10: a `*args` parameter annotated `int` yields exactly one
`tuple[int]` wrapper, and an unannotated one (empty underlying set) yields
the empty set. -/
theorem c10_variadic_wrappers_witness :
    inferParam c10f 0 ⟨"a", some c10annNode, 1⟩ false = [.genCls "tuple" [[intC]] []] ∧
    inferParam c10f 0 ⟨"b", none, 1⟩ false = [] := by
  have h := c10_variadic_wrappers
  constructor
  · rw [(h c10f 0 ⟨"a", some c10annNode, 1⟩).1 rfl]
    decide
  · exact (h c10f 0 ⟨"b", none, 1⟩).2.2 (Or.inl rfl) (by decide)

/-! ### Claim C3: `_infer_annotation_string` with an index -/

/-- The C3 claim's description of `_infer_annotation_string` with an index:
keep exactly the fixed-arity tuple values having at least `index + 1`
elements and extract the element at position `index` of those values. -/
def inferAnnotStringClaimC3 (ctx : Context) (s : String) (i : Nat) : List Value :=
  match getForwardReferenceNode ctx s with
  | none => []
  | some nd =>
    ((ctx.inferNode nd).filter
        (fun v => arrayTypeV v == some "tuple" && decide (pyIterLen v ≥ i + 1))).flatMap
      (fun v => pySimpleGetItemV v i)

theorem filter_getitem_boundary (i : Nat) :
    ∀ l : List Value,
      (l.filter (fun v => arrayTypeV v == some "tuple" && decide (pyIterLen v ≥ i))).flatMap
          (fun v => pySimpleGetItemV v i)
        = (l.filter
              (fun v => arrayTypeV v == some "tuple" && decide (pyIterLen v ≥ i + 1))).flatMap
            (fun v => pySimpleGetItemV v i) := by
  intro l
  induction l with
  | nil => rfl
  | cons v vs ih =>
    rw [List.filter_cons, List.filter_cons]
    by_cases h1 : arrayTypeV v = some "tuple"
    case neg =>
      have hb : (arrayTypeV v == some "tuple") = false := by
        simp [h1]
      simp only [hb, Bool.false_and, if_false]
      exact ih
    case pos =>
      have hb : (arrayTypeV v == some "tuple") = true := by simp [h1]
      by_cases h2 : pyIterLen v ≥ i + 1
      · have d1 : decide (pyIterLen v ≥ i) = true := by
          simp only [decide_eq_true_eq]
          omega
        have d2 : decide (pyIterLen v ≥ i + 1) = true := by simp [h2]
        simp only [hb, d1, d2, Bool.true_and, if_true, List.flatMap_cons]
        rw [ih]
      · by_cases h3 : pyIterLen v ≥ i
        · have d1 : decide (pyIterLen v ≥ i) = true := by simp [h3]
          have d2 : decide (pyIterLen v ≥ i + 1) = false := by
            simp only [decide_eq_false_iff_not]
            exact h2
          simp only [hb, d1, d2, Bool.true_and, Bool.and_false, if_true, if_false,
            List.flatMap_cons]
          have hget : pySimpleGetItemV v i = [] := by
            cases v <;> simp [arrayTypeV] at h1
            case seqVal k elems =>
              simp only [pySimpleGetItemV]
              have hlen : elems.length ≤ i := by
                simp only [pyIterLen, iterateV] at h2
                omega
              rw [List.get?_eq_none.mpr hlen]
              rfl
          rw [hget, ih]
          rfl
        · have d1 : decide (pyIterLen v ≥ i) = false := by simp [h3]
          have d2 : decide (pyIterLen v ≥ i + 1) = false := by
            simp only [decide_eq_false_iff_not]
            omega
          simp only [hb, d1, d2, Bool.and_false, Bool.false_eq_true, if_false]
          exact ih

/-- C3: with an index, `_infer_annotation_string` denotes exactly the
claim's description: only inferred fixed-arity tuples with at least
`index + 1` elements contribute, each contributing its element at position
`index`; non-tuples and too-short tuples contribute nothing.  (The
source's filter bound is `index`, one lower, but a tuple of exactly
`index` elements contributes nothing to the indexed access, so the result
sets coincide.) -/
theorem c3_annotation_string_index :
    ∀ (ctx : Context) (s : String) (i : Nat),
      inferAnnotString ctx s (some i) = inferAnnotStringClaimC3 ctx s i := by
  intro ctx s i
  unfold inferAnnotString inferAnnotStringClaimC3
  cases getForwardReferenceNode ctx s with
  | none => rfl
  | some nd => exact filter_getitem_boundary i (ctx.inferNode nd)

/-! ### Claim C1: `infer_return_types` path selection -/

/-- The C1 claim's description of `infer_return_types` path selection:
identical to the embedding except that the unification path is taken when
the return annotation *or any parameter annotation* references unresolved
type variables. -/
def inferReturnTypesClaimC1 (f : FunctionModel) (args : List ExecutedParamName) : List Value :=
  let allAnnotations := pyAnnotationsOf f
  match allAnnotations.lookup "return" with
  | none =>
    match f.followingComment with
    | none => []
    | some comment =>
      match matchReturnTypeComment comment with
      | none => []
      | some group1 => executeAnnotSet (inferAnnotString f.ctx (pyStrip group1) none)
  | some annotationNode =>
    let unknownTypeVars := findUnknownTypeVars f.ctx annotationNode
    let paramHasTypeVars :=
      f.params.any (fun p =>
        match p.annot with
        | some a => !(findUnknownTypeVars f.ctx a).isEmpty
        | none => false)
    let annotationValues := inferAnnot f.ctx annotationNode
    if unknownTypeVars.isEmpty && !paramHasTypeVars then executeAnnotSet annotationValues
    else
      let typeVarDict := inferTypeVarsForExecution f args allAnnotations
      executeAnnotSet
        (annotationValues.flatMap
          (fun ann =>
            if isDefineGenericOrTypeVar ann then defineGenerics typeVarDict ann else [ann]))

/-- The return annotation node of the C1 scenario: a bare name `Alias`
inferring to the generic `list[T]` (so it mentions a type variable in its
*value* but `find_unknown_type_vars` finds none in the *node*). -/
def aliasNode : Node := .leaf "name" "Alias" ""

/-- The parameter annotation node of the C1 scenario: the bare name `T`. -/
def tvarNode : Node := .leaf "name" "T" ""

/-- The inference context of the C1 scenario. -/
def c1ctx : Context :=
  ⟨fun nd =>
      if nd = aliasNode then [.genCls "list" [[.typeVar 0 "T"]] []]
      else if nd = tvarNode then [.typeVar 0 "T"] else [],
   fun _ => .error (), fun _ => .error ()⟩

/-- The C1 scenario's function: `def f(x: T) -> Alias`. -/
def c1f : FunctionModel := ⟨c1ctx, [⟨"x", some tvarNode, 0⟩], some aliasNode, none, false⟩

/-- The C1 scenario's call: `f(some int instance)`. -/
def c1args : List ExecutedParamName := [⟨"x", .positionalOrKeyword, [.inst intC]⟩]

/-- C1 counterexample: for `def f(x: T) -> Alias` (with `Alias` naming the
generic `list[T]`) the parameter annotation references the unresolved `T`,
so the claim's rule demands the unification path — substituting `T ↦ int`
before executing.  The code gates only on the return annotation's own
unknown type variables (none here, since the node is a bare name inferring
to a non-TypeVar value) and takes the direct path, leaving `T`
unsubstituted; the two paths produce different results. -/
theorem c1_counterexample :
    inferReturnTypes c1f c1args = [.inst (.genCls "list" [[.typeVar 0 "T"]] [])] ∧
    inferReturnTypesClaimC1 c1f c1args = [.inst (.genCls "list" [[intC]] [])] ∧
    findUnknownTypeVars c1f.ctx tvarNode = [.typeVar 0 "T"] := by
  refine ⟨by decide, by decide, by decide⟩

/-- C1 (amended): `infer_return_types` takes the type-variable unification
path exactly when the *syntactic return annotation itself* references
unresolved type variables: with none found there it executes the resolved
return-annotation set directly and the result is independent of the call's
arguments (so parameter-annotation type variables alone never trigger
unification); with some found it substitutes the bindings built from the
executed parameters before executing; and a comment-style return
annotation always executes directly, also independently of the
arguments. -/
theorem c1_amended_path_selection :
    (∀ (f : FunctionModel) (args : List ExecutedParamName) (nd : Node),
      (pyAnnotationsOf f).lookup "return" = some nd →
      ((findUnknownTypeVars f.ctx nd).isEmpty = true →
        inferReturnTypes f args = executeAnnotSet (inferAnnot f.ctx nd) ∧
        ∀ args2, inferReturnTypes f args = inferReturnTypes f args2) ∧
      ((findUnknownTypeVars f.ctx nd).isEmpty = false →
        inferReturnTypes f args =
          executeAnnotSet
            ((inferAnnot f.ctx nd).flatMap
              (fun ann =>
                if isDefineGenericOrTypeVar ann then
                  defineGenerics (inferTypeVarsForExecution f args (pyAnnotationsOf f)) ann
                else [ann])))) ∧
    (∀ (f : FunctionModel) (args args2 : List ExecutedParamName),
      (pyAnnotationsOf f).lookup "return" = none →
      inferReturnTypes f args = inferReturnTypes f args2) := by
  constructor
  · intro f args nd h
    constructor
    · intro hempty
      constructor
      · simp only [inferReturnTypes, h]
        simp [hempty]
      · intro args2
        simp only [inferReturnTypes, h]
        simp [hempty]
    · intro hne
      simp only [inferReturnTypes, h]
      simp [hne]
  · intro f args args2 h
    simp only [inferReturnTypes, h]

/-- Witness for C1's amended theorem: the direct path taken at the
concrete C1 scenario. -/
theorem c1_amended_path_selection_witness :
    inferReturnTypes c1f c1args = executeAnnotSet (inferAnnot c1f.ctx aliasNode) := by
  exact ((c1_amended_path_selection.1 c1f c1args aliasNode rfl).1 (by decide)).1

end Jedi
